import Mathlib

/-!
# lambda-thumbnail: background colour estimation and thumbnail composition

A shallow embedding of `findBackgroundColor` and `transformImage` from `main.go`,
together with the parts of the Go `image` package and of `disintegration/imaging`
they call (`Rect`, `Intersect`, `NRGBA.At`, `CropAnchor`, `Crop`, `Resize`, `Sharpen`,
`New`, `OverlayCenter`, `Overlay`, `Clone`).

Modelling conventions.
* Go `int` values are `Int`; no computation here comes near the 64-bit range for an
  image that fits in memory, so wrap-around is not modelled.
* A pixel colour is its `color.NRGBA` value, which is the form the scanner of `imaging`
  hands to every operation and the dynamic type of every `cropped.At` result.
* An image is its bounds and its pixel function in absolute coordinates.
* The floating-point pixel arithmetic of resampling, sharpening and alpha blending is
  not unfolded: it is the parameter `Kernels`.  Dimensions and placement are exact.
-/

namespace LambdaThumbnail

/-! ## Go `image/color` and `image` -/

/-- The Go type `color.NRGBA`: four 8-bit channels. -/
structure NRGBA where
  R : Fin 256
  G : Fin 256
  B : Fin 256
  A : Fin 256
  deriving DecidableEq, Repr

/-- The zero value `color.NRGBA{}`. -/
def NRGBA.zero : NRGBA := ⟨0, 0, 0, 0⟩

/-- The Go type `image.Point`. -/
structure Point where
  X : Int
  Y : Int
  deriving DecidableEq, Repr

/-- The Go type `image.Rectangle`. -/
structure Rectangle where
  Min : Point
  Max : Point
  deriving DecidableEq, Repr

/-- The zero rectangle `image.ZR`. -/
def ZR : Rectangle := ⟨⟨0, 0⟩, ⟨0, 0⟩⟩

/-- Go `image.Rect`: the rectangle with the given corners, coordinates swapped into order. -/
def Rect (x0 y0 x1 y1 : Int) : Rectangle :=
  let xa := if x0 > x1 then x1 else x0
  let xb := if x0 > x1 then x0 else x1
  let ya := if y0 > y1 then y1 else y0
  let yb := if y0 > y1 then y0 else y1
  ⟨⟨xa, ya⟩, ⟨xb, yb⟩⟩

/-- Go `Point.Add`. -/
def Point.Add (p q : Point) : Point := ⟨p.X + q.X, p.Y + q.Y⟩

/-- Go `Point.Sub`. -/
def Point.Sub (p q : Point) : Point := ⟨p.X - q.X, p.Y - q.Y⟩

/-- Go `Rectangle.Dx`. -/
def Rectangle.Dx (r : Rectangle) : Int := r.Max.X - r.Min.X

/-- Go `Rectangle.Dy`. -/
def Rectangle.Dy (r : Rectangle) : Int := r.Max.Y - r.Min.Y

/-- Go `Rectangle.Size`. -/
def Rectangle.Size (r : Rectangle) : Point := ⟨r.Max.X - r.Min.X, r.Max.Y - r.Min.Y⟩

/-- Go `Rectangle.Add`. -/
def Rectangle.Add (r : Rectangle) (p : Point) : Rectangle :=
  ⟨⟨r.Min.X + p.X, r.Min.Y + p.Y⟩, ⟨r.Max.X + p.X, r.Max.Y + p.Y⟩⟩

/-- Go `Rectangle.Sub`. -/
def Rectangle.Sub (r : Rectangle) (p : Point) : Rectangle :=
  ⟨⟨r.Min.X - p.X, r.Min.Y - p.Y⟩, ⟨r.Max.X - p.X, r.Max.Y - p.Y⟩⟩

/-- Go `Rectangle.Empty`. -/
def Rectangle.Empty (r : Rectangle) : Bool :=
  decide (r.Min.X ≥ r.Max.X) || decide (r.Min.Y ≥ r.Max.Y)

/-- Go `Rectangle.Intersect`. -/
def Rectangle.Intersect (r s : Rectangle) : Rectangle :=
  let minX := if r.Min.X < s.Min.X then s.Min.X else r.Min.X
  let minY := if r.Min.Y < s.Min.Y then s.Min.Y else r.Min.Y
  let maxX := if r.Max.X > s.Max.X then s.Max.X else r.Max.X
  let maxY := if r.Max.Y > s.Max.Y then s.Max.Y else r.Max.Y
  let r1 : Rectangle := ⟨⟨minX, minY⟩, ⟨maxX, maxY⟩⟩
  if r1.Empty then ZR else r1

/-- Go `Point.In`. -/
def Point.In (p : Point) (r : Rectangle) : Bool :=
  decide (r.Min.X ≤ p.X) && decide (p.X < r.Max.X) &&
    decide (r.Min.Y ≤ p.Y) && decide (p.Y < r.Max.Y)

/-- An `image.Image`: its `Bounds()` and its pixels, addressed by absolute coordinates and
already converted to `color.NRGBA`. -/
structure Image where
  Rect : Rectangle
  Pix : Int → Int → NRGBA

/-- Go `Image.Bounds`. -/
def Image.Bounds (img : Image) : Rectangle := img.Rect

/-- Go `(*image.NRGBA).At`: the zero colour outside the rectangle. -/
def Image.At (img : Image) (x y : Int) : NRGBA :=
  if Point.In ⟨x, y⟩ img.Rect then img.Pix x y else NRGBA.zero

/-- The value `&image.NRGBA{}`: no pixels, zero rectangle. -/
def Image.empty : Image := ⟨ZR, fun _ _ => NRGBA.zero⟩

/-! ## `disintegration/imaging`: anchors and cropping -/

/-- The type `imaging.Anchor`. -/
inductive Anchor where
  | Center
  | TopLeft
  | Top
  | TopRight
  | Left
  | Right
  | BottomLeft
  | Bottom
  | BottomRight
  deriving DecidableEq, Repr

/-- The function `anchorPt` of `imaging`; Go integer division truncates. -/
def anchorPt (b : Rectangle) (w h : Int) (anchor : Anchor) : Point :=
  match anchor with
  | Anchor.TopLeft => ⟨b.Min.X, b.Min.Y⟩
  | Anchor.Top => ⟨b.Min.X + Int.tdiv (b.Dx - w) 2, b.Min.Y⟩
  | Anchor.TopRight => ⟨b.Max.X - w, b.Min.Y⟩
  | Anchor.Left => ⟨b.Min.X, b.Min.Y + Int.tdiv (b.Dy - h) 2⟩
  | Anchor.Right => ⟨b.Max.X - w, b.Min.Y + Int.tdiv (b.Dy - h) 2⟩
  | Anchor.BottomLeft => ⟨b.Min.X, b.Max.Y - h⟩
  | Anchor.Bottom => ⟨b.Min.X + Int.tdiv (b.Dx - w) 2, b.Max.Y - h⟩
  | Anchor.BottomRight => ⟨b.Max.X - w, b.Max.Y - h⟩
  | Anchor.Center => ⟨b.Min.X + Int.tdiv (b.Dx - w) 2, b.Min.Y + Int.tdiv (b.Dy - h) 2⟩

/-- The function `imaging.Crop`: the pixels of `rect` (clipped to the image), copied into a
fresh NRGBA image whose bounds start at the origin. -/
def Crop (img : Image) (rect : Rectangle) : Image :=
  let r := (rect.Intersect img.Bounds).Sub img.Bounds.Min
  if r.Empty then Image.empty
  else
    ⟨LambdaThumbnail.Rect 0 0 r.Dx r.Dy,
      fun x y => img.Pix (img.Bounds.Min.X + r.Min.X + x) (img.Bounds.Min.Y + r.Min.Y + y)⟩

/-- The function `imaging.CropAnchor`. -/
def CropAnchor (img : Image) (width height : Int) (anchor : Anchor) : Image :=
  let srcBounds := img.Bounds
  let pt := anchorPt srcBounds width height anchor
  let r := (LambdaThumbnail.Rect 0 0 width height).Add pt
  let b := srcBounds.Intersect r
  Crop img b

/-! ## `main.go`: background colour -/

/-- The global `cropSize` of `main.go`. -/
def cropSize : Nat := 30

/-- The global `anchors` of `main.go`. -/
def anchors : List Anchor :=
  [Anchor.TopLeft, Anchor.TopRight, Anchor.BottomLeft, Anchor.BottomRight]

/-- The loop state of `findBackgroundColor`: the map `histogram` (a missing key reads 0),
`bestColor` (a nil interface value is `none`) and `bestCount`. -/
structure BgState where
  histogram : NRGBA → Nat
  bestColor : Option NRGBA
  bestCount : Nat

/-- The state before the loops. -/
def BgState.init : BgState := ⟨fun _ => 0, none, 0⟩

/-- One iteration of the inner loop body, for the sampled colour `currColor`. -/
def sampleStep (s : BgState) (currColor : NRGBA) : BgState :=
  let histogram := fun c => if c = currColor then s.histogram c + 1 else s.histogram c
  let currCount := histogram currColor
  if currCount > s.bestCount then ⟨histogram, some currColor, currCount⟩
  else ⟨histogram, s.bestColor, s.bestCount⟩

/-- The function `findBackgroundColor` of `main.go`. -/
def findBackgroundColor (img : Image) : Option NRGBA :=
  let final := anchors.foldl
    (fun s anchor =>
      let cropped := CropAnchor img cropSize cropSize anchor
      (List.range cropSize).foldl
        (fun s (pos : Nat) => sampleStep s (cropped.At pos pos)) s)
    BgState.init
  final.bestColor

/-- The sampled colours in loop order: for each anchor in turn, the `cropSize` diagonal reads
`cropped.At(pos, pos)`. -/
def samples (img : Image) : List NRGBA :=
  anchors.flatMap fun anchor =>
    (List.range cropSize).map fun pos : Nat =>
      (CropAnchor img cropSize cropSize anchor).At pos pos

/-- The loop of `findBackgroundColor` run over a list of sampled colours. -/
def runSamples (l : List NRGBA) : BgState := l.foldl sampleStep BgState.init

/-! ## `disintegration/imaging`: resizing, sharpening, overlay -/

/-- The floating-point pixel arithmetic of `imaging`, kept as a parameter. -/
structure Kernels where
  /-- Pixel `(x, y)` of the CatmullRom resampling of an image to `dstW` by `dstH`. -/
  resample : Image → Int → Int → Int → Int → NRGBA
  /-- Pixel `(x, y)` of the image sharpened with sigma 0.5. -/
  sharpen : Image → Int → Int → NRGBA
  /-- Alpha blending at opacity 1 of a source pixel (second) over a destination pixel. -/
  blend : NRGBA → NRGBA → NRGBA

/-- A simple instance of `Kernels` for evaluating the definitions on concrete images:
nearest-neighbour resampling, no sharpening, the source pixel replaces the destination. -/
def Kernels.nearest : Kernels where
  resample := fun img dstW dstH x y =>
    img.Pix (img.Bounds.Min.X + x * img.Bounds.Dx / dstW)
      (img.Bounds.Min.Y + y * img.Bounds.Dy / dstH)
  sharpen := fun img x y => img.Pix x y
  blend := fun _ src => src

/-- The derived dimension of `imaging.Resize`,
`int(math.Max(1.0, math.Floor(float64(a)*float64(b)/float64(c) + 0.5)))` for `c > 0`,
with the quotient taken exactly (float64 rounding is not modelled). -/
def autoDim (a b c : Int) : Int := max 1 ((2 * (a * b) + c) / (2 * c))

/-- The function `imaging.Resize` with the CatmullRom filter: the destination size as the
library computes it, the pixels from `Kernels.resample`. -/
def Resize (k : Kernels) (img : Image) (width height : Int) : Image :=
  if width < 0 ∨ height < 0 then Image.empty
  else if width = 0 ∧ height = 0 then Image.empty
  else
    let srcW := img.Bounds.Dx
    let srcH := img.Bounds.Dy
    if srcW ≤ 0 ∨ srcH ≤ 0 then Image.empty
    else
      let dstW := if width = 0 then autoDim height srcW srcH else width
      let dstH := if height = 0 then autoDim dstW srcH srcW else height
      ⟨LambdaThumbnail.Rect 0 0 dstW dstH, k.resample img dstW dstH⟩

/-- The function `imaging.Sharpen` at a positive sigma: same size, origin at zero. -/
def Sharpen (k : Kernels) (img : Image) : Image :=
  ⟨LambdaThumbnail.Rect 0 0 img.Bounds.Dx img.Bounds.Dy, k.sharpen img⟩

/-- The function `imaging.New`. -/
def New (width height : Int) (fillColor : NRGBA) : Image :=
  if width ≤ 0 ∨ height ≤ 0 then Image.empty
  else ⟨LambdaThumbnail.Rect 0 0 width height, fun _ _ => fillColor⟩

/-- The function `imaging.Clone`. -/
def Clone (img : Image) : Image :=
  ⟨LambdaThumbnail.Rect 0 0 img.Bounds.Dx img.Bounds.Dy,
    fun x y => img.Pix (img.Bounds.Min.X + x) (img.Bounds.Min.Y + y)⟩

/-- The function `imaging.Overlay` at opacity 1. -/
def Overlay (k : Kernels) (background img : Image) (pos : Point) : Image :=
  let dst := Clone background
  let pos := pos.Sub background.Bounds.Min
  let pasteRect : Rectangle := ⟨pos, pos.Add img.Bounds.Size⟩
  let interRect := pasteRect.Intersect dst.Bounds
  if interRect.Empty then dst
  else
    ⟨dst.Rect, fun x y =>
      if Point.In ⟨x, y⟩ interRect then
        k.blend (dst.Pix x y)
          (img.Pix (img.Bounds.Min.X + (x - pasteRect.Min.X))
            (img.Bounds.Min.Y + (y - pasteRect.Min.Y)))
      else dst.Pix x y⟩

/-- The point `(x0, y0)` that `imaging.OverlayCenter` computes. -/
def centerOffset (background img : Image) : Point :=
  let bgBounds := background.Bounds
  let bgW := bgBounds.Dx
  let bgH := bgBounds.Dy
  let bgMinX := bgBounds.Min.X
  let bgMinY := bgBounds.Min.Y
  let centerX := bgMinX + Int.tdiv bgW 2
  let centerY := bgMinY + Int.tdiv bgH 2
  let x0 := centerX - Int.tdiv img.Bounds.Dx 2
  let y0 := centerY - Int.tdiv img.Bounds.Dy 2
  ⟨x0, y0⟩

/-- The function `imaging.OverlayCenter` at opacity 1. -/
def OverlayCenter (k : Kernels) (background img : Image) : Image :=
  Overlay k background img (centerOffset background img)

/-! ## `main.go`: thumbnail composition -/

/-- The type `imaging.Format`. -/
inductive Format where
  | JPEG
  | PNG
  | GIF
  | TIFF
  | BMP
  deriving DecidableEq, Repr

/-- The struct `Transform` of `main.go`. -/
structure Transform where
  Size : Int
  Path : String
  Format : Format
  ContentType : String

/-- The image `dstImage` of `transformImage` after `imaging.Resize` (lines 122 to 132). -/
def resizeStep (k : Kernels) (img : Image) (transform : Transform) : Image :=
  let bounds := img.Bounds
  let resizeWidth := if bounds.Max.X > bounds.Max.Y then transform.Size else 0
  let resizeHeight := if bounds.Max.X > bounds.Max.Y then 0 else transform.Size
  Resize k img resizeWidth resizeHeight

/-- The function `transformImage` of `main.go`. -/
def transformImage (k : Kernels) (img : Image) (transform : Transform) (bgColor : NRGBA) :
    Image :=
  if transform.Size = 0 then img
  else
    let bounds := img.Bounds
    let resizeWidth := if bounds.Max.X > bounds.Max.Y then transform.Size else 0
    let resizeHeight := if bounds.Max.X > bounds.Max.Y then 0 else transform.Size
    let dstImage := Resize k img resizeWidth resizeHeight
    let dstImage := Sharpen k dstImage
    let bgImage := New transform.Size transform.Size bgColor
    OverlayCenter k bgImage dstImage

/-- The table `ImageTransforms` of `main.go`. -/
def ImageTransforms : List (String × Transform) :=
  [("small", ⟨300, "%s/%s/300.jpg", Format.JPEG, "image/jpeg"⟩),
   ("large", ⟨1200, "%s/%s/1200.jpg", Format.JPEG, "image/jpeg"⟩)]

/-! ## Notions used to state the properties -/

/-- The colour `c` is the colour of the earliest sample at which some running count reaches
`n`: the samples split as `pre ++ c :: post` where this occurrence of `c` is its `n`-th and
no colour occurs `n` times in `pre`. -/
def FirstReaches (l : List NRGBA) (c : NRGBA) (n : Nat) : Prop :=
  ∃ pre post, l = pre ++ c :: post ∧ pre.count c + 1 = n ∧ ∀ d, pre.count d < n

/-- The first pixel (top-left) of the window that `CropAnchor` cuts for a `cropSize` square
at the given anchor, after clipping to the bounds `b`. -/
def cornerOrigin (b : Rectangle) (anchor : Anchor) : Point :=
  ⟨max b.Min.X (anchorPt b cropSize cropSize anchor).X,
    max b.Min.Y (anchorPt b cropSize cropSize anchor).Y⟩

/-- The 120 samples as the specification describes them for an image of at least 30 by 30:
the 30 main-diagonal pixels of the 30 by 30 square in each corner, taken top-left, top-right,
bottom-left, bottom-right. -/
def cornerDiagonals (img : Image) : List NRGBA :=
  let b := img.Bounds
  ((List.range 30).map fun i : Nat => img.Pix (b.Min.X + i) (b.Min.Y + i)) ++
  ((List.range 30).map fun i : Nat => img.Pix (b.Max.X - 30 + i) (b.Min.Y + i)) ++
  ((List.range 30).map fun i : Nat => img.Pix (b.Min.X + i) (b.Max.Y - 30 + i)) ++
  ((List.range 30).map fun i : Nat => img.Pix (b.Max.X - 30 + i) (b.Max.Y - 30 + i))

/-- Every pixel inside the bounds of the image has colour `c`. -/
def Image.Uniform (img : Image) (c : NRGBA) : Prop :=
  ∀ x y, Point.In ⟨x, y⟩ img.Rect = true → img.Pix x y = c

/-- The tie-break rule in the specification's words: the returned colour comes no later, by
first occurrence in sampling order, than any colour occurring as often as it does. -/
def FirstSeenTieBreak (img : Image) : Prop :=
  ∀ c, findBackgroundColor img = some c →
    ∀ d, (samples img).count d = (samples img).count c →
      (samples img).indexOf c ≤ (samples img).indexOf d

/-- Exactly one axis of the rectangle measures `T` and the other measures strictly less. -/
def OneAxisFits (r : Rectangle) (T : Int) : Prop :=
  (r.Dx = T ∧ r.Dy < T) ∨ (r.Dy = T ∧ r.Dx < T)

/-- The background margins that `OverlayCenter` leaves around content of size `rw` by `rh`
pasted on a `T` by `T` canvas at `pos`: left, right, top, bottom. -/
def margins (T rw rh : Int) (pos : Point) : Int × Int × Int × Int :=
  (pos.X, T - (pos.X + rw), pos.Y, T - (pos.Y + rh))

/-- The number of diagonal reads that fall inside a clipped corner crop. -/
def insideReads (img : Image) : Nat := min (min img.Bounds.Dx img.Bounds.Dy).toNat 30

/-- Four corner blocks in loop order, each `a` samples of `c` followed by `b` samples of
`z`. -/
def fourBlocks (a b : Nat) (c z : NRGBA) : List NRGBA :=
  ((((((([] ++ List.replicate a c) ++ List.replicate b z) ++
    List.replicate a c) ++ List.replicate b z) ++ List.replicate a c) ++
    List.replicate b z) ++ List.replicate a c) ++ List.replicate b z

/-! ## Concrete images -/

/-- An image of a single colour with the given bounds. -/
def solid (r : Rectangle) (c : NRGBA) : Image := ⟨r, fun _ _ => c⟩

/-- Black, as a decoder without alpha channel delivers it. -/
def black : NRGBA := ⟨0, 0, 0, 255⟩

/-- Red. -/
def red : NRGBA := ⟨255, 0, 0, 255⟩

/-- Blue. -/
def blue : NRGBA := ⟨0, 0, 255, 255⟩

/-- White. -/
def white : NRGBA := ⟨255, 255, 255, 255⟩

/-- A colour that differs from pixel to pixel (for coordinates below 256). -/
def gradient (x y : Int) : NRGBA := ⟨Fin.ofNat x.toNat, Fin.ofNat y.toNat, 1, 255⟩

/-- A 60 by 60 image.  In the top-left 30 by 30 square the first column is red and the rest
blue; in the top-right square the first 28 rows are red; every other pixel has its own
colour.  The samples are: red, 29 blue, 28 red, then 62 colours seen once each. -/
def tieImage : Image :=
  ⟨⟨⟨0, 0⟩, ⟨60, 60⟩⟩, fun x y =>
    if y < 30 ∧ x = 0 then red
    else if y < 30 ∧ x < 30 then blue
    else if y < 28 then red
    else gradient x y⟩

/-- A 60 by 60 image whose four 30 by 30 quadrants are red, blue, white and black. -/
def quadImage : Image :=
  ⟨⟨⟨0, 0⟩, ⟨60, 60⟩⟩, fun x y =>
    if y < 30 then (if x < 30 then red else blue)
    else (if x < 30 then white else black)⟩

/-- The entry `small` of `ImageTransforms`. -/
def small : Transform := ⟨300, "%s/%s/300.jpg", Format.JPEG, "image/jpeg"⟩

/-- A transform with the given size and the other fields of `small`. -/
def sized (n : Int) : Transform := ⟨n, "%s/%s/300.jpg", Format.JPEG, "image/jpeg"⟩

/-- A 10 wide, 50 high image whose bounds start at `(100, 0)`, as a GIF frame placed at an
offset in its logical screen decodes to. -/
def offsetImage : Image := solid ⟨⟨100, 0⟩, ⟨110, 50⟩⟩ white

/-! # Theorems -/

/-! ## The sampling loop as a fold over the sample list -/

theorem sampleStep_histogram (s : BgState) (x c : NRGBA) :
    (sampleStep s x).histogram c = if c = x then s.histogram c + 1 else s.histogram c := by
  unfold sampleStep
  by_cases h : s.histogram x + 1 > s.bestCount <;> simp [h]

theorem sampleStep_bestCount (s : BgState) (x : NRGBA) :
    (sampleStep s x).bestCount =
      if s.histogram x + 1 > s.bestCount then s.histogram x + 1 else s.bestCount := by
  unfold sampleStep
  by_cases h : s.histogram x + 1 > s.bestCount <;> simp [h]

theorem sampleStep_bestColor (s : BgState) (x : NRGBA) :
    (sampleStep s x).bestColor =
      if s.histogram x + 1 > s.bestCount then some x else s.bestColor := by
  unfold sampleStep
  by_cases h : s.histogram x + 1 > s.bestCount <;> simp [h]

theorem findBackgroundColor_eq_runSamples (img : Image) :
    findBackgroundColor img = (runSamples (samples img)).bestColor := by
  simp [findBackgroundColor, samples, runSamples, anchors, List.foldl_append, List.foldl_map]

theorem runSamples_append_singleton (l : List NRGBA) (x : NRGBA) :
    runSamples (l ++ [x]) = sampleStep (runSamples l) x := by
  simp [runSamples, List.foldl_append]

theorem runSamples_histogram (l : List NRGBA) (c : NRGBA) :
    (runSamples l).histogram c = l.count c := by
  induction l using List.reverseRecOn with
  | nil => rfl
  | append_singleton l x ih =>
    rw [runSamples_append_singleton, sampleStep_histogram, ih]
    by_cases hc : c = x
    · subst hc
      simp
    · have hx : ¬ (x = c) := fun h => hc h.symm
      simp [hc, hx, List.count_cons]

theorem runSamples_bestCount_ge (l : List NRGBA) (d : NRGBA) :
    l.count d ≤ (runSamples l).bestCount := by
  induction l using List.reverseRecOn generalizing d with
  | nil => simp
  | append_singleton l x ih =>
    rw [runSamples_append_singleton, sampleStep_bestCount, runSamples_histogram]
    have hd := ih d
    have hx := ih x
    by_cases hc : x = d
    · subst hc
      split <;> simp
      omega
    · split <;> simp [List.count_cons, hc] <;> omega

theorem runSamples_best (l : List NRGBA) (hl : l ≠ []) :
    ∃ c, (runSamples l).bestColor = some c ∧ FirstReaches l c (runSamples l).bestCount := by
  induction l using List.reverseRecOn with
  | nil => exact absurd rfl hl
  | append_singleton l x ih =>
    rw [runSamples_append_singleton, sampleStep_bestCount, sampleStep_bestColor,
      runSamples_histogram]
    have hb := runSamples_bestCount_ge l
    by_cases hgt : l.count x + 1 > (runSamples l).bestCount
    · refine ⟨x, by simp [hgt], l, [], by simp, by simp [hgt], ?_⟩
      intro d
      have := hb d
      simp [hgt]
      omega
    · by_cases hnil : l = []
      · subst hnil
        simp [runSamples, BgState.init] at hgt
      · obtain ⟨c, hc, pre, post, hsplit, hcnt, hlt⟩ := ih hnil
        refine ⟨c, by simp [hgt, hc], pre, post ++ [x], by simp [hsplit], ?_, ?_⟩
        · simp [hgt, hcnt]
        · intro d
          simp [hgt]
          exact hlt d

/-! ## Rectangles and crops -/

theorem ite_lt_eq_max (a b : Int) : (if a < b then b else a) = max a b := by
  split_ifs <;> omega

theorem ite_gt_eq_min (a b : Int) : (if a > b then b else a) = min a b := by
  split_ifs <;> omega

theorem Rect_of_le {x0 y0 x1 y1 : Int} (hx : x0 ≤ x1) (hy : y0 ≤ y1) :
    Rect x0 y0 x1 y1 = ⟨⟨x0, y0⟩, ⟨x1, y1⟩⟩ := by
  have h1 : ¬ (x0 > x1) := by omega
  have h2 : ¬ (y0 > y1) := by omega
  simp [Rect, h1, h2]

theorem Intersect_eq (r s : Rectangle) :
    r.Intersect s =
      if min r.Max.X s.Max.X ≤ max r.Min.X s.Min.X ∨ min r.Max.Y s.Max.Y ≤ max r.Min.Y s.Min.Y
      then ZR
      else ⟨⟨max r.Min.X s.Min.X, max r.Min.Y s.Min.Y⟩,
        ⟨min r.Max.X s.Max.X, min r.Max.Y s.Max.Y⟩⟩ := by
  simp only [Rectangle.Intersect, Rectangle.Empty, ite_lt_eq_max, ite_gt_eq_min,
    Bool.or_eq_true, decide_eq_true_eq, ge_iff_le]

theorem Intersect_ZR_left (s : Rectangle) : ZR.Intersect s = ZR := by
  rw [Intersect_eq]
  have : min ZR.Max.X s.Max.X ≤ max ZR.Min.X s.Min.X := by
    simp only [ZR]; omega
  simp [this]

theorem Crop_ZR (img : Image) : Crop img ZR = Image.empty := by
  unfold Crop
  rw [Intersect_ZR_left]
  simp [Rectangle.Sub, Rectangle.Empty, ZR]

theorem empty_At (x y : Int) : Image.empty.At x y = NRGBA.zero := by
  simp [Image.At, Image.empty]

/-- The diagonal read of a crop window of side 30 placed at `(px, py)`. -/
theorem Crop_window_At (img : Image) (px py x y : Int) :
    (Crop img (img.Bounds.Intersect ((Rect 0 0 30 30).Add ⟨px, py⟩))).At x y =
      if 0 ≤ x ∧ 0 ≤ y ∧ max img.Bounds.Min.X px + x < min img.Bounds.Max.X (px + 30) ∧
          max img.Bounds.Min.Y py + y < min img.Bounds.Max.Y (py + 30)
      then img.Pix (max img.Bounds.Min.X px + x) (max img.Bounds.Min.Y py + y)
      else NRGBA.zero := by
  have hR : Rect 0 0 30 30 = ⟨⟨0, 0⟩, ⟨30, 30⟩⟩ := Rect_of_le (by omega) (by omega)
  rw [hR, Intersect_eq]
  simp only [Rectangle.Add, zero_add]
  by_cases he : min img.Bounds.Max.X (30 + px) ≤ max img.Bounds.Min.X px ∨
      min img.Bounds.Max.Y (30 + py) ≤ max img.Bounds.Min.Y py
  · rw [if_pos he, Crop_ZR, empty_At, if_neg]
    omega
  · rw [if_neg he]
    have hX : max img.Bounds.Min.X px < min img.Bounds.Max.X (30 + px) := by omega
    have hY : max img.Bounds.Min.Y py < min img.Bounds.Max.Y (30 + py) := by omega
    unfold Crop
    rw [Intersect_eq]
    simp only []
    have hne : ¬ (min (min img.Bounds.Max.X (30 + px)) img.Bounds.Max.X ≤
          max (max img.Bounds.Min.X px) img.Bounds.Min.X ∨
        min (min img.Bounds.Max.Y (30 + py)) img.Bounds.Max.Y ≤
          max (max img.Bounds.Min.Y py) img.Bounds.Min.Y) := by omega
    rw [if_neg hne]
    have hE : (Rectangle.Sub ⟨⟨max (max img.Bounds.Min.X px) img.Bounds.Min.X,
          max (max img.Bounds.Min.Y py) img.Bounds.Min.Y⟩,
        ⟨min (min img.Bounds.Max.X (30 + px)) img.Bounds.Max.X,
          min (min img.Bounds.Max.Y (30 + py)) img.Bounds.Max.Y⟩⟩ img.Bounds.Min).Empty
        = false := by
      simp only [Rectangle.Sub, Rectangle.Empty, Bool.or_eq_false_iff, decide_eq_false_iff_not]
      omega
    rw [hE]
    simp only [Bool.false_eq_true, if_false, Rectangle.Sub, Rectangle.Dx, Rectangle.Dy]
    rw [Rect_of_le (by omega) (by omega)]
    simp only [Image.At, Point.In, Bool.and_eq_true, decide_eq_true_eq]
    have e1 : img.Bounds.Min.X + (max (max img.Bounds.Min.X px) img.Bounds.Min.X -
        img.Bounds.Min.X) + x = max img.Bounds.Min.X px + x := by omega
    have e2 : img.Bounds.Min.Y + (max (max img.Bounds.Min.Y py) img.Bounds.Min.Y -
        img.Bounds.Min.Y) + y = max img.Bounds.Min.Y py + y := by omega
    rw [e1, e2]
    by_cases hc : 0 ≤ x ∧ 0 ≤ y ∧ max img.Bounds.Min.X px + x < min img.Bounds.Max.X (px + 30) ∧
          max img.Bounds.Min.Y py + y < min img.Bounds.Max.Y (py + 30)
    · rw [if_pos hc, if_pos]
      omega
    · rw [if_neg hc, if_neg]
      omega

theorem CropAnchor_eq (img : Image) (a : Anchor) :
    CropAnchor img cropSize cropSize a =
      Crop img (img.Bounds.Intersect ((Rect 0 0 30 30).Add
        ⟨(anchorPt img.Bounds 30 30 a).X, (anchorPt img.Bounds 30 30 a).Y⟩)) := rfl

theorem sample_At (img : Image) (a : Anchor) (ha : a ∈ anchors) (pos : Nat) (hpos : pos < 30) :
    (CropAnchor img cropSize cropSize a).At pos pos =
      if (pos : Int) < img.Bounds.Dx ∧ (pos : Int) < img.Bounds.Dy then
        img.Pix ((cornerOrigin img.Bounds a).X + pos) ((cornerOrigin img.Bounds a).Y + pos)
      else NRGBA.zero := by
  rw [CropAnchor_eq, Crop_window_At]
  have hc : ((cropSize : Nat) : Int) = 30 := rfl
  simp only [anchors, List.mem_cons, List.mem_singleton, List.not_mem_nil, or_false] at ha
  rcases ha with rfl | rfl | rfl | rfl <;>
    simp only [anchorPt, cornerOrigin, hc, Rectangle.Dx, Rectangle.Dy] <;>
    apply if_congr _ rfl rfl <;> omega

theorem samples_unfold (img : Image) :
    samples img =
      ((List.range 30).map fun pos : Nat =>
        (CropAnchor img cropSize cropSize Anchor.TopLeft).At pos pos) ++
      (((List.range 30).map fun pos : Nat =>
        (CropAnchor img cropSize cropSize Anchor.TopRight).At pos pos) ++
      (((List.range 30).map fun pos : Nat =>
        (CropAnchor img cropSize cropSize Anchor.BottomLeft).At pos pos) ++
      ((List.range 30).map fun pos : Nat =>
        (CropAnchor img cropSize cropSize Anchor.BottomRight).At pos pos))) := by
  simp [samples, anchors, cropSize]

theorem corner_block_of_large (img : Image) (a : Anchor) (ha : a ∈ anchors)
    (hx : 30 ≤ img.Bounds.Dx) (hy : 30 ≤ img.Bounds.Dy) :
    ((List.range 30).map fun pos : Nat => (CropAnchor img cropSize cropSize a).At pos pos) =
      (List.range 30).map fun i : Nat =>
        img.Pix ((anchorPt img.Bounds 30 30 a).X + i) ((anchorPt img.Bounds 30 30 a).Y + i) := by
  apply List.map_congr_left
  intro pos hpos
  have hlt : pos < 30 := List.mem_range.mp hpos
  rw [sample_At img a ha pos hlt, if_pos (by omega)]
  have hc : ((cropSize : Nat) : Int) = 30 := rfl
  simp only [anchors, List.mem_cons, List.mem_singleton, List.not_mem_nil, or_false] at ha
  simp only [Rectangle.Dx, Rectangle.Dy] at hx hy
  rcases ha with rfl | rfl | rfl | rfl <;>
    simp only [anchorPt, cornerOrigin, hc] <;>
    congr 2 <;> omega

theorem samples_eq_cornerDiagonals (img : Image)
    (hx : 30 ≤ img.Bounds.Dx) (hy : 30 ≤ img.Bounds.Dy) :
    samples img = cornerDiagonals img := by
  rw [samples_unfold,
    corner_block_of_large img Anchor.TopLeft (by simp [anchors]) hx hy,
    corner_block_of_large img Anchor.TopRight (by simp [anchors]) hx hy,
    corner_block_of_large img Anchor.BottomLeft (by simp [anchors]) hx hy,
    corner_block_of_large img Anchor.BottomRight (by simp [anchors]) hx hy]
  simp [cornerDiagonals, anchorPt]

theorem samples_length (img : Image) : (samples img).length = 120 := by
  simp [samples_unfold]

/-! ## Runs of equal samples -/

theorem runSamples_nil_bestCount : (runSamples []).bestCount = 0 := rfl

theorem runSamples_nil_bestColor : (runSamples []).bestColor = none := rfl

theorem runSamples_append_replicate (l : List NRGBA) (n : Nat) (x : NRGBA) :
    (runSamples (l ++ List.replicate n x)).bestCount =
        max (runSamples l).bestCount (l.count x + n) ∧
      (runSamples (l ++ List.replicate n x)).bestColor =
        if (runSamples l).bestCount < l.count x + n then some x
        else (runSamples l).bestColor := by
  induction n with
  | zero =>
    have := runSamples_bestCount_ge l x
    constructor
    · simp only [List.replicate_zero, List.append_nil, Nat.add_zero]
      omega
    · simp only [List.replicate_zero, List.append_nil, Nat.add_zero]
      rw [if_neg (by omega)]
  | succ n ih =>
    obtain ⟨ih1, ih2⟩ := ih
    have hl : l ++ List.replicate (n + 1) x = (l ++ List.replicate n x) ++ [x] := by
      rw [List.replicate_succ', List.append_assoc]
    rw [hl, runSamples_append_singleton, sampleStep_bestCount, sampleStep_bestColor,
      runSamples_histogram, ih1, ih2]
    have hcount : List.count x (l ++ List.replicate n x) = l.count x + n := by
      simp [List.count_append, List.count_replicate]
    rw [hcount]
    constructor
    · split_ifs <;> omega
    · split_ifs <;> first | rfl | omega

theorem runSamples_append_replicate_bestCount (l : List NRGBA) (n : Nat) (x : NRGBA) :
    (runSamples (l ++ List.replicate n x)).bestCount =
      max (runSamples l).bestCount (l.count x + n) :=
  (runSamples_append_replicate l n x).1

theorem runSamples_append_replicate_bestColor (l : List NRGBA) (n : Nat) (x : NRGBA) :
    (runSamples (l ++ List.replicate n x)).bestColor =
      if (runSamples l).bestCount < l.count x + n then some x
      else (runSamples l).bestColor :=
  (runSamples_append_replicate l n x).2

/-- A block of `a` samples of `c` then `b` samples of another colour `z`, with `b ≤ a`,
appended to samples among which `c` leads: `c` still leads. -/
theorem block_keeps_lead (l : List NRGBA) (a b : Nat) (c z : NRGBA) (hcz : c ≠ z)
    (hba : b ≤ a) (ha : 0 < a) (hl : l.count c = (runSamples l).bestCount) :
    ((l ++ List.replicate a c) ++ List.replicate b z).count c =
        (runSamples ((l ++ List.replicate a c) ++ List.replicate b z)).bestCount ∧
      (runSamples ((l ++ List.replicate a c) ++ List.replicate b z)).bestColor = some c := by
  have hzc : ¬ (z = c) := fun h => hcz h.symm
  have hz := runSamples_bestCount_ge l z
  simp only [runSamples_append_replicate_bestColor, runSamples_append_replicate_bestCount,
    List.count_append, List.count_replicate, beq_iff_eq, hcz, hzc, if_false, if_true,
    Nat.add_zero]
  constructor
  · omega
  · rw [if_neg (by omega), if_pos (by omega)]

/-- A block of `a` samples of `c` then `b` samples of another colour `z`, with `a < b`,
appended to samples among which `z` leads: `z` still leads. -/
theorem block_takes_lead (l : List NRGBA) (a b : Nat) (c z : NRGBA) (hcz : c ≠ z)
    (hab : a < b) (hl : l.count z = (runSamples l).bestCount) :
    ((l ++ List.replicate a c) ++ List.replicate b z).count z =
        (runSamples ((l ++ List.replicate a c) ++ List.replicate b z)).bestCount ∧
      (runSamples ((l ++ List.replicate a c) ++ List.replicate b z)).bestColor = some z := by
  have hzc : ¬ (z = c) := fun h => hcz h.symm
  have hc := runSamples_bestCount_ge l c
  simp only [runSamples_append_replicate_bestColor, runSamples_append_replicate_bestCount,
    List.count_append, List.count_replicate, beq_iff_eq, hcz, hzc, if_false, if_true,
    Nat.add_zero]
  constructor
  · omega
  · rw [if_pos (by omega)]

/-- A block of `a + b` samples of `c`, appended to samples among which `c` leads. -/
theorem block_same (l : List NRGBA) (a b : Nat) (c : NRGBA) (hab : 0 < a + b)
    (hl : l.count c = (runSamples l).bestCount) :
    ((l ++ List.replicate a c) ++ List.replicate b c).count c =
        (runSamples ((l ++ List.replicate a c) ++ List.replicate b c)).bestCount ∧
      (runSamples ((l ++ List.replicate a c) ++ List.replicate b c)).bestColor = some c := by
  simp only [runSamples_append_replicate_bestColor, runSamples_append_replicate_bestCount,
    List.count_append, List.count_replicate, beq_self_eq_true, if_true]
  constructor
  · omega
  · split_ifs <;> first | rfl | omega

theorem run_fourBlocks_inside (a b : Nat) (c z : NRGBA) (hba : b ≤ a) (ha : 0 < a) :
    (runSamples (fourBlocks a b c z)).bestColor = some c := by
  unfold fourBlocks
  have h0 : ([] : List NRGBA).count c = (runSamples []).bestCount := rfl
  by_cases hcz : c = z
  · subst hcz
    have hab : 0 < a + b := by omega
    have h1 := block_same _ a b c hab h0
    have h2 := block_same _ a b c hab h1.1
    have h3 := block_same _ a b c hab h2.1
    exact (block_same _ a b c hab h3.1).2
  · have h1 := block_keeps_lead _ a b c z hcz hba ha h0
    have h2 := block_keeps_lead _ a b c z hcz hba ha h1.1
    have h3 := block_keeps_lead _ a b c z hcz hba ha h2.1
    exact (block_keeps_lead _ a b c z hcz hba ha h3.1).2

theorem run_fourBlocks_outside (a b : Nat) (c z : NRGBA) (hcz : c ≠ z) (hab : a < b) :
    (runSamples (fourBlocks a b c z)).bestColor = some z := by
  unfold fourBlocks
  have h0 : ([] : List NRGBA).count z = (runSamples []).bestCount := rfl
  have h1 := block_takes_lead _ a b c z hcz hab h0
  have h2 := block_takes_lead _ a b c z hcz hab h1.1
  have h3 := block_takes_lead _ a b c z hcz hab h2.1
  exact (block_takes_lead _ a b c z hcz hab h3.1).2

theorem run_fourBlocks_same (a b : Nat) (c : NRGBA) (hab : 0 < a + b) :
    (runSamples (fourBlocks a b c c)).bestColor = some c := by
  unfold fourBlocks
  have h0 : ([] : List NRGBA).count c = (runSamples []).bestCount := rfl
  have h1 := block_same _ a b c hab h0
  have h2 := block_same _ a b c hab h1.1
  have h3 := block_same _ a b c hab h2.1
  exact (block_same _ a b c hab h3.1).2

/-! ## Samples of a one-coloured image -/

theorem range_map_threshold (n a : Nat) (c z : NRGBA) :
    ((List.range n).map fun i => if i < a then c else z) =
      List.replicate (min a n) c ++ List.replicate (n - min a n) z := by
  induction n with
  | zero => simp
  | succ n ih =>
    rw [List.range_succ, List.map_append, ih]
    by_cases h : n < a
    · have h1 : min a n = n := by omega
      have h2 : min a (n + 1) = n + 1 := by omega
      simp [h, h1, h2, List.replicate_succ']
    · have h1 : min a n = a := by omega
      have h2 : min a (n + 1) = a := by omega
      have h3 : n + 1 - a = (n - a) + 1 := by omega
      simp [h, h1, h2, h3, List.replicate_succ']

theorem uniform_block (img : Image) (c : NRGBA) (hu : img.Uniform c) (a : Anchor)
    (ha : a ∈ anchors) :
    ((List.range 30).map fun pos : Nat => (CropAnchor img cropSize cropSize a).At pos pos) =
      List.replicate (insideReads img) c ++ List.replicate (30 - insideReads img) NRGBA.zero := by
  have hmap : ((List.range 30).map fun pos : Nat =>
      (CropAnchor img cropSize cropSize a).At pos pos) =
      (List.range 30).map fun i : Nat =>
        if i < (min img.Bounds.Dx img.Bounds.Dy).toNat then c else NRGBA.zero := by
    apply List.map_congr_left
    intro pos hpos
    have hlt : pos < 30 := List.mem_range.mp hpos
    rw [sample_At img a ha pos hlt]
    by_cases hin : (pos : Int) < img.Bounds.Dx ∧ (pos : Int) < img.Bounds.Dy
    · rw [if_pos hin, if_pos (by omega)]
      apply hu
      have hc : ((cropSize : Nat) : Int) = 30 := rfl
      simp only [anchors, List.mem_cons, List.mem_singleton, List.not_mem_nil, or_false] at ha
      simp only [Rectangle.Dx, Rectangle.Dy, Image.Bounds] at hin
      rcases ha with rfl | rfl | rfl | rfl <;>
        simp only [anchorPt, cornerOrigin, hc, Point.In, Image.Bounds, Bool.and_eq_true,
          decide_eq_true_eq] <;> omega
    · rw [if_neg hin, if_neg (by omega)]
  rw [hmap, range_map_threshold]
  rfl

theorem uniform_samples (img : Image) (c : NRGBA) (hu : img.Uniform c) :
    samples img = fourBlocks (insideReads img) (30 - insideReads img) c NRGBA.zero := by
  rw [samples_unfold,
    uniform_block img c hu Anchor.TopLeft (by simp [anchors]),
    uniform_block img c hu Anchor.TopRight (by simp [anchors]),
    uniform_block img c hu Anchor.BottomLeft (by simp [anchors]),
    uniform_block img c hu Anchor.BottomRight (by simp [anchors])]
  simp [fourBlocks, List.append_assoc]

theorem findBackgroundColor_uniform_inside (img : Image) (c : NRGBA) (hu : img.Uniform c)
    (hm : 15 ≤ min img.Bounds.Dx img.Bounds.Dy) : findBackgroundColor img = some c := by
  rw [findBackgroundColor_eq_runSamples, uniform_samples img c hu]
  apply run_fourBlocks_inside <;> unfold insideReads <;> omega

theorem findBackgroundColor_uniform_outside (img : Image) (c : NRGBA) (hu : img.Uniform c)
    (hc : c ≠ NRGBA.zero) (hm : min img.Bounds.Dx img.Bounds.Dy < 15) :
    findBackgroundColor img = some NRGBA.zero := by
  rw [findBackgroundColor_eq_runSamples, uniform_samples img c hu]
  apply run_fourBlocks_outside _ _ _ _ hc
  unfold insideReads
  omega

/-- The crop that `CropAnchor` cuts at one of the four corners of an image with pixels:
its bounds and its pixels. -/
theorem CropAnchor_corner (img : Image) (a : Anchor) (ha : a ∈ anchors)
    (hw : 0 < img.Bounds.Dx) (hh : 0 < img.Bounds.Dy) :
    (CropAnchor img cropSize cropSize a).Rect =
        ⟨⟨0, 0⟩, ⟨min img.Bounds.Dx 30, min img.Bounds.Dy 30⟩⟩ ∧
      ∀ x y, (CropAnchor img cropSize cropSize a).Pix x y =
        img.Pix ((cornerOrigin img.Bounds a).X + x) ((cornerOrigin img.Bounds a).Y + y) := by
  have hR : Rect 0 0 30 30 = ⟨⟨0, 0⟩, ⟨30, 30⟩⟩ := Rect_of_le (by omega) (by omega)
  have hc : ((cropSize : Nat) : Int) = 30 := rfl
  simp only [Rectangle.Dx, Rectangle.Dy] at hw hh
  rw [CropAnchor_eq, hR, Intersect_eq]
  simp only [Rectangle.Add, zero_add]
  have hpx : (anchorPt img.Bounds 30 30 a).X = img.Bounds.Min.X ∨
      (anchorPt img.Bounds 30 30 a).X = img.Bounds.Max.X - 30 := by
    simp only [anchors, List.mem_cons, List.mem_singleton, List.not_mem_nil, or_false] at ha
    rcases ha with rfl | rfl | rfl | rfl <;> simp [anchorPt]
  have hpy : (anchorPt img.Bounds 30 30 a).Y = img.Bounds.Min.Y ∨
      (anchorPt img.Bounds 30 30 a).Y = img.Bounds.Max.Y - 30 := by
    simp only [anchors, List.mem_cons, List.mem_singleton, List.not_mem_nil, or_false] at ha
    rcases ha with rfl | rfl | rfl | rfl <;> simp [anchorPt]
  simp only [cornerOrigin, hc]
  generalize (anchorPt img.Bounds 30 30 a).X = px at hpx ⊢
  generalize (anchorPt img.Bounds 30 30 a).Y = py at hpy ⊢
  have he : ¬ (min img.Bounds.Max.X (30 + px) ≤ max img.Bounds.Min.X px ∨
      min img.Bounds.Max.Y (30 + py) ≤ max img.Bounds.Min.Y py) := by omega
  rw [if_neg he]
  unfold Crop
  rw [Intersect_eq]
  simp only []
  have hne : ¬ (min (min img.Bounds.Max.X (30 + px)) img.Bounds.Max.X ≤
        max (max img.Bounds.Min.X px) img.Bounds.Min.X ∨
      min (min img.Bounds.Max.Y (30 + py)) img.Bounds.Max.Y ≤
        max (max img.Bounds.Min.Y py) img.Bounds.Min.Y) := by omega
  rw [if_neg hne]
  have hE : (Rectangle.Sub ⟨⟨max (max img.Bounds.Min.X px) img.Bounds.Min.X,
        max (max img.Bounds.Min.Y py) img.Bounds.Min.Y⟩,
      ⟨min (min img.Bounds.Max.X (30 + px)) img.Bounds.Max.X,
        min (min img.Bounds.Max.Y (30 + py)) img.Bounds.Max.Y⟩⟩ img.Bounds.Min).Empty
      = false := by
    simp only [Rectangle.Sub, Rectangle.Empty, Bool.or_eq_false_iff, decide_eq_false_iff_not]
    omega
  rw [hE]
  simp only [Bool.false_eq_true, if_false, Rectangle.Sub, Rectangle.Dx, Rectangle.Dy]
  rw [Rect_of_le (by omega) (by omega)]
  refine ⟨?_, ?_⟩
  · congr 2 <;> omega
  · intro x y
    congr 1 <;> omega

/-! ## Four one-coloured corners -/

theorem corner_block_of_uniform_crop (img : Image) (a : Anchor) (ha : a ∈ anchors) (c : NRGBA)
    (hx : 30 ≤ img.Bounds.Dx) (hy : 30 ≤ img.Bounds.Dy)
    (hu : (CropAnchor img cropSize cropSize a).Uniform c) :
    ((List.range 30).map fun pos : Nat => (CropAnchor img cropSize cropSize a).At pos pos) =
      List.replicate 30 c := by
  obtain ⟨hrect, -⟩ := CropAnchor_corner img a ha (by omega) (by omega)
  rw [List.eq_replicate_iff]
  refine ⟨by simp, ?_⟩
  intro b hb
  obtain ⟨pos, hpos, rfl⟩ := List.mem_map.mp hb
  have hlt : pos < 30 := List.mem_range.mp hpos
  have hin : Point.In ⟨(pos : Int), (pos : Int)⟩ (CropAnchor img cropSize cropSize a).Rect
      = true := by
    rw [hrect]
    simp only [Point.In, Bool.and_eq_true, decide_eq_true_eq]
    omega
  unfold Image.At
  rw [if_pos hin]
  exact hu _ _ hin

theorem shared_pixel_left_right (img : Image) (c0 c1 : NRGBA)
    (hw : 0 < img.Bounds.Dx) (hh : 0 < img.Bounds.Dy) (hlt : img.Bounds.Dx < 30)
    (h0 : (CropAnchor img cropSize cropSize Anchor.TopLeft).Uniform c0)
    (h1 : (CropAnchor img cropSize cropSize Anchor.TopRight).Uniform c1) : c0 = c1 := by
  obtain ⟨r0, p0⟩ := CropAnchor_corner img Anchor.TopLeft (by simp [anchors]) hw hh
  obtain ⟨r1, p1⟩ := CropAnchor_corner img Anchor.TopRight (by simp [anchors]) hw hh
  have hc : ((cropSize : Nat) : Int) = 30 := rfl
  have e0 := h0 0 0 (by
    rw [r0]; simp only [Point.In, Bool.and_eq_true, decide_eq_true_eq]; omega)
  have e1 := h1 0 0 (by
    rw [r1]; simp only [Point.In, Bool.and_eq_true, decide_eq_true_eq]; omega)
  rw [p0] at e0
  rw [p1] at e1
  simp only [cornerOrigin, anchorPt, hc] at e0 e1
  simp only [Rectangle.Dx] at hlt hw
  have hX : max img.Bounds.Min.X (img.Bounds.Max.X - 30) = max img.Bounds.Min.X img.Bounds.Min.X := by
    omega
  rw [hX] at e1
  rw [← e0, ← e1]

theorem shared_pixel_top_bottom (img : Image) (c0 c2 : NRGBA)
    (hw : 0 < img.Bounds.Dx) (hh : 0 < img.Bounds.Dy) (hlt : img.Bounds.Dy < 30)
    (h0 : (CropAnchor img cropSize cropSize Anchor.TopLeft).Uniform c0)
    (h2 : (CropAnchor img cropSize cropSize Anchor.BottomLeft).Uniform c2) : c0 = c2 := by
  obtain ⟨r0, p0⟩ := CropAnchor_corner img Anchor.TopLeft (by simp [anchors]) hw hh
  obtain ⟨r2, p2⟩ := CropAnchor_corner img Anchor.BottomLeft (by simp [anchors]) hw hh
  have hc : ((cropSize : Nat) : Int) = 30 := rfl
  have e0 := h0 0 0 (by
    rw [r0]; simp only [Point.In, Bool.and_eq_true, decide_eq_true_eq]; omega)
  have e2 := h2 0 0 (by
    rw [r2]; simp only [Point.In, Bool.and_eq_true, decide_eq_true_eq]; omega)
  rw [p0] at e0
  rw [p2] at e2
  simp only [cornerOrigin, anchorPt, hc] at e0 e2
  simp only [Rectangle.Dy] at hlt hh
  have hY : max img.Bounds.Min.Y (img.Bounds.Max.Y - 30) = max img.Bounds.Min.Y img.Bounds.Min.Y := by
    omega
  rw [hY] at e2
  rw [← e0, ← e2]

theorem run_four_distinct (c0 c1 c2 c3 : NRGBA) (h01 : c0 ≠ c1) (h02 : c0 ≠ c2) (h03 : c0 ≠ c3)
    (h12 : c1 ≠ c2) (h13 : c1 ≠ c3) (h23 : c2 ≠ c3) :
    (runSamples (((([] ++ List.replicate 30 c0) ++ List.replicate 30 c1) ++
      List.replicate 30 c2) ++ List.replicate 30 c3)).bestColor = some c0 := by
  simp only [runSamples_append_replicate_bestColor, runSamples_append_replicate_bestCount,
    runSamples_nil_bestCount, runSamples_nil_bestColor, List.count_append, List.count_replicate,
    List.count_nil, beq_iff_eq, h01, h02, h03, h12, h13, h23, if_false]
  simp

theorem findBackgroundColor_distinct_corners (img : Image) (c0 c1 c2 c3 : NRGBA)
    (hw : 0 < img.Bounds.Dx) (hh : 0 < img.Bounds.Dy)
    (h0 : (CropAnchor img cropSize cropSize Anchor.TopLeft).Uniform c0)
    (h1 : (CropAnchor img cropSize cropSize Anchor.TopRight).Uniform c1)
    (h2 : (CropAnchor img cropSize cropSize Anchor.BottomLeft).Uniform c2)
    (h3 : (CropAnchor img cropSize cropSize Anchor.BottomRight).Uniform c3)
    (h01 : c0 ≠ c1) (h02 : c0 ≠ c2) (h03 : c0 ≠ c3)
    (h12 : c1 ≠ c2) (h13 : c1 ≠ c3) (h23 : c2 ≠ c3) :
    findBackgroundColor img = some c0 := by
  have hx : 30 ≤ img.Bounds.Dx := by
    by_contra hlt
    exact h01 (shared_pixel_left_right img c0 c1 hw hh (by omega) h0 h1)
  have hy : 30 ≤ img.Bounds.Dy := by
    by_contra hlt
    exact h02 (shared_pixel_top_bottom img c0 c2 hw hh (by omega) h0 h2)
  rw [findBackgroundColor_eq_runSamples, samples_unfold,
    corner_block_of_uniform_crop img Anchor.TopLeft (by simp [anchors]) c0 hx hy h0,
    corner_block_of_uniform_crop img Anchor.TopRight (by simp [anchors]) c1 hx hy h1,
    corner_block_of_uniform_crop img Anchor.BottomLeft (by simp [anchors]) c2 hx hy h2,
    corner_block_of_uniform_crop img Anchor.BottomRight (by simp [anchors]) c3 hx hy h3]
  have := run_four_distinct c0 c1 c2 c3 h01 h02 h03 h12 h13 h23
  simpa [List.append_assoc] using this

/-! ## Sizes in `transformImage` -/

theorem Intersect_ZR_right (r : Rectangle) : r.Intersect ZR = ZR := by
  rw [Intersect_eq]
  have : min r.Max.X ZR.Max.X ≤ max r.Min.X ZR.Min.X := by
    simp only [ZR]; omega
  simp [this]

theorem New_of_pos (T : Int) (c : NRGBA) (hT : 0 < T) :
    New T T c = ⟨⟨⟨0, 0⟩, ⟨T, T⟩⟩, fun _ _ => c⟩ := by
  have h : ¬ (T ≤ 0 ∨ T ≤ 0) := by omega
  simp only [New, h, if_false]
  rw [Rect_of_le (by omega) (by omega)]

theorem New_of_nonpos (T : Int) (c : NRGBA) (hT : T ≤ 0) : New T T c = Image.empty := by
  simp [New, hT]

theorem Overlay_Rect (k : Kernels) (background img : Image) (pos : Point) :
    (Overlay k background img pos).Rect = (Clone background).Rect := by
  unfold Overlay
  simp only []
  split_ifs <;> rfl

theorem Clone_Rect (img : Image) (hx : 0 ≤ img.Bounds.Dx) (hy : 0 ≤ img.Bounds.Dy) :
    (Clone img).Rect = ⟨⟨0, 0⟩, ⟨img.Bounds.Dx, img.Bounds.Dy⟩⟩ := by
  simp only [Clone]
  rw [Rect_of_le hx hy]

theorem transformImage_eq_overlay (k : Kernels) (img : Image) (t : Transform) (bg : NRGBA)
    (h : t.Size ≠ 0) :
    transformImage k img t bg =
      Overlay k (New t.Size t.Size bg) (Sharpen k (resizeStep k img t))
        (centerOffset (New t.Size t.Size bg) (Sharpen k (resizeStep k img t))) := by
  simp [transformImage, h, resizeStep, OverlayCenter]

theorem transformImage_Rect (k : Kernels) (img : Image) (t : Transform) (bg : NRGBA)
    (hT : 0 < t.Size) :
    (transformImage k img t bg).Rect = ⟨⟨0, 0⟩, ⟨t.Size, t.Size⟩⟩ := by
  rw [transformImage_eq_overlay k img t bg (by omega), Overlay_Rect, New_of_pos _ _ hT,
    Clone_Rect]
  · simp [Image.Bounds, Rectangle.Dx, Rectangle.Dy]
  · simp only [Image.Bounds, Rectangle.Dx]; omega
  · simp only [Image.Bounds, Rectangle.Dy]; omega

theorem autoDim_pos (a b c : Int) : 1 ≤ autoDim a b c := by
  unfold autoDim
  omega

theorem autoDim_le (T s l : Int) (hT : 0 < T) (hs : 0 < s) (hsl : s < l) :
    autoDim T s l ≤ T := by
  unfold autoDim
  have hl : 0 < 2 * l := by omega
  have hmul : T * s < T * l := mul_lt_mul_of_pos_left hsl hT
  have hexp : (T + 1) * (2 * l) = 2 * (T * l) + 2 * l := by ring
  have hq : (2 * (T * s) + l) / (2 * l) < T + 1 :=
    Int.ediv_lt_of_lt_mul hl (by rw [hexp]; omega)
  omega

theorem autoDim_lt_iff (T s l : Int) (hT : 0 < T) (hs : 0 < s) (hsl : s < l) :
    autoDim T s l < T ↔ 2 ≤ T ∧ l < 2 * T * (l - s) := by
  unfold autoDim
  have hl : 0 < 2 * l := by omega
  have hexp : T * (2 * l) = 2 * (T * l) := by ring
  have hexp2 : 2 * T * (l - s) = 2 * (T * l) - 2 * (T * s) := by ring
  have hq : (2 * (T * s) + l) / (2 * l) < T ↔ 2 * (T * s) + l < T * (2 * l) :=
    Int.ediv_lt_iff_lt_mul hl
  rw [hexp2]
  rw [hexp] at hq
  constructor
  · intro h
    have h1 : (2 * (T * s) + l) / (2 * l) < T := by omega
    have h2 := hq.mp h1
    omega
  · rintro ⟨h2, h⟩
    have h1 : (2 * (T * s) + l) / (2 * l) < T := hq.mpr (by omega)
    omega

theorem resizeStep_Rect_wide (k : Kernels) (img : Image) (t : Transform)
    (hw : 0 < img.Bounds.Dx) (hh : 0 < img.Bounds.Dy) (hT : 0 < t.Size)
    (hgt : img.Bounds.Max.X > img.Bounds.Max.Y) :
    (resizeStep k img t).Rect =
      ⟨⟨0, 0⟩, ⟨t.Size, autoDim t.Size img.Bounds.Dy img.Bounds.Dx⟩⟩ := by
  have h1 : ¬ (t.Size < 0 ∨ (0 : Int) < 0) := by omega
  have h2 : ¬ (t.Size = 0 ∧ (0 : Int) = 0) := by omega
  have h3 : ¬ (img.Bounds.Dx ≤ 0 ∨ img.Bounds.Dy ≤ 0) := by omega
  have h4 : t.Size ≠ 0 := by omega
  have hp := autoDim_pos t.Size img.Bounds.Dy img.Bounds.Dx
  simp only [resizeStep, hgt, if_true, Resize, h1, h2, h3, h4, if_false]
  rw [Rect_of_le (by omega) (by omega)]
  simp

theorem resizeStep_Rect_tall (k : Kernels) (img : Image) (t : Transform)
    (hw : 0 < img.Bounds.Dx) (hh : 0 < img.Bounds.Dy) (hT : 0 < t.Size)
    (hle : ¬ img.Bounds.Max.X > img.Bounds.Max.Y) :
    (resizeStep k img t).Rect =
      ⟨⟨0, 0⟩, ⟨autoDim t.Size img.Bounds.Dx img.Bounds.Dy, t.Size⟩⟩ := by
  have h1 : ¬ ((0 : Int) < 0 ∨ t.Size < 0) := by omega
  have h2 : ¬ ((0 : Int) = 0 ∧ t.Size = 0) := by omega
  have h3 : ¬ (img.Bounds.Dx ≤ 0 ∨ img.Bounds.Dy ≤ 0) := by omega
  have h4 : t.Size ≠ 0 := by omega
  have hp := autoDim_pos t.Size img.Bounds.Dx img.Bounds.Dy
  simp only [resizeStep, hle, if_false, Resize, h1, h2, h3, h4, if_true]
  rw [Rect_of_le (by omega) (by omega)]
  simp

theorem transformImage_of_neg (k : Kernels) (img : Image) (t : Transform) (bg : NRGBA)
    (hT : t.Size < 0) : transformImage k img t bg = Image.empty := by
  rw [transformImage_eq_overlay k img t bg (by omega), New_of_nonpos _ _ (by omega)]
  unfold Overlay
  have hI : (Clone Image.empty).Bounds = ZR := rfl
  simp only [hI, Intersect_ZR_right]
  rfl

/-! ## Centring, for an image whose bounds start at the origin -/

theorem autoDim_le_of_le (T s l : Int) (hT : 0 < T) (hs : 0 < s) (hsl : s ≤ l) :
    autoDim T s l ≤ T := by
  unfold autoDim
  have hl : 0 < 2 * l := by omega
  have hmul : T * s ≤ T * l := mul_le_mul_of_nonneg_left hsl (by omega)
  have hexp : (T + 1) * (2 * l) = 2 * (T * l) + 2 * l := by ring
  have hq : (2 * (T * s) + l) / (2 * l) < T + 1 :=
    Int.ediv_lt_of_lt_mul hl (by rw [hexp]; omega)
  omega

/-- For a source whose bounds start at the origin, the content that `transformImage` pastes
is `rw` by `rh` with both between 1 and `T`, it is pasted at `(T/2 - rw/2, T/2 - rh/2)`, and
on each axis the two margins are non-negative and differ by at most one pixel. -/
theorem transformImage_margins_of_origin (k : Kernels) (img : Image) (t : Transform)
    (bg : NRGBA) (hmin : img.Bounds.Min = ⟨0, 0⟩)
    (hw : 0 < img.Bounds.Dx) (hh : 0 < img.Bounds.Dy) (hT : 0 < t.Size) :
    ∃ rw rh : Int,
      (Sharpen k (resizeStep k img t)).Rect = ⟨⟨0, 0⟩, ⟨rw, rh⟩⟩ ∧
      1 ≤ rw ∧ rw ≤ t.Size ∧ 1 ≤ rh ∧ rh ≤ t.Size ∧
      centerOffset (New t.Size t.Size bg) (Sharpen k (resizeStep k img t)) =
        ⟨Int.tdiv t.Size 2 - Int.tdiv rw 2, Int.tdiv t.Size 2 - Int.tdiv rh 2⟩ ∧
      ∀ l r u d : Int,
        margins t.Size rw rh (centerOffset (New t.Size t.Size bg)
          (Sharpen k (resizeStep k img t))) = (l, r, u, d) →
        0 ≤ l ∧ 0 ≤ r ∧ 0 ≤ u ∧ 0 ≤ d ∧ l - r ≤ 1 ∧ r - l ≤ 1 ∧ u - d ≤ 1 ∧ d - u ≤ 1 := by
  have hX : img.Bounds.Max.X = img.Bounds.Dx := by
    simp [Rectangle.Dx, hmin]
  have hY : img.Bounds.Max.Y = img.Bounds.Dy := by
    simp [Rectangle.Dy, hmin]
  have key : ∃ rw rh : Int, (resizeStep k img t).Rect = ⟨⟨0, 0⟩, ⟨rw, rh⟩⟩ ∧
      1 ≤ rw ∧ rw ≤ t.Size ∧ 1 ≤ rh ∧ rh ≤ t.Size := by
    by_cases hgt : img.Bounds.Max.X > img.Bounds.Max.Y
    · exact ⟨_, _, resizeStep_Rect_wide k img t hw hh hT hgt, by omega, le_refl _,
        autoDim_pos _ _ _, autoDim_le_of_le _ _ _ hT hh (by omega)⟩
    · exact ⟨_, _, resizeStep_Rect_tall k img t hw hh hT hgt, autoDim_pos _ _ _,
        autoDim_le_of_le _ _ _ hT hw (by omega), by omega, le_refl _⟩
  obtain ⟨rw, rh, hr, h1, h2, h3, h4⟩ := key
  have hS : (Sharpen k (resizeStep k img t)).Rect = ⟨⟨0, 0⟩, ⟨rw, rh⟩⟩ := by
    simp only [Sharpen, Image.Bounds, hr, Rectangle.Dx, Rectangle.Dy, sub_zero]
    rw [Rect_of_le (by omega) (by omega)]
  have hC : centerOffset (New t.Size t.Size bg) (Sharpen k (resizeStep k img t)) =
      ⟨Int.tdiv t.Size 2 - Int.tdiv rw 2, Int.tdiv t.Size 2 - Int.tdiv rh 2⟩ := by
    simp only [centerOffset, New_of_pos _ _ hT, Image.Bounds, hS, Rectangle.Dx, Rectangle.Dy,
      sub_zero, zero_add]
  refine ⟨rw, rh, hS, h1, h2, h3, h4, hC, ?_⟩
  intro l r u d hm
  rw [hC] at hm
  simp only [margins, Prod.mk.injEq] at hm
  obtain ⟨rfl, rfl, rfl, rfl⟩ := hm
  rw [Int.tdiv_eq_ediv (by omega) (by omega), Int.tdiv_eq_ediv (by omega : (0 : Int) ≤ rw)
    (by omega), Int.tdiv_eq_ediv (by omega : (0 : Int) ≤ rh) (by omega)]
  omega

/-- The specification's scenario: a 4000 by 2000 source and `T = 300` give content of 300 by
150 pasted at `(0, 75)`, with margins of 75 above and below. -/
theorem transformImage_scenario_4000_2000 :
    (Sharpen Kernels.nearest
        (resizeStep Kernels.nearest (solid ⟨⟨0, 0⟩, ⟨4000, 2000⟩⟩ white) small)).Rect =
        ⟨⟨0, 0⟩, ⟨300, 150⟩⟩ ∧
      centerOffset (New 300 300 black) (Sharpen Kernels.nearest
        (resizeStep Kernels.nearest (solid ⟨⟨0, 0⟩, ⟨4000, 2000⟩⟩ white) small)) = ⟨0, 75⟩ ∧
      margins 300 300 150 ⟨0, 75⟩ = (0, 0, 75, 75) := by
  refine ⟨by decide, by decide, by decide⟩

/-! ## The claims about `findBackgroundColor` -/

set_option maxRecDepth 100000

/-- C1: for an image at least `cropSize` wide and high, the 120 samples of the loop are the 30
main-diagonal pixels of each 30 by 30 corner square (top-left, top-right, bottom-left,
bottom-right), and `findBackgroundColor` returns one of them that no colour outnumbers. -/
theorem findBackgroundColor_most_frequent (img : Image)
    (hx : 30 ≤ img.Bounds.Dx) (hy : 30 ≤ img.Bounds.Dy) :
    samples img = cornerDiagonals img ∧ (cornerDiagonals img).length = 120 ∧
      ∃ c, findBackgroundColor img = some c ∧ c ∈ cornerDiagonals img ∧
        ∀ d, (cornerDiagonals img).count d ≤ (cornerDiagonals img).count c := by
  have hs := samples_eq_cornerDiagonals img hx hy
  have hlen := samples_length img
  have hne : samples img ≠ [] := by
    intro h
    rw [h] at hlen
    simp at hlen
  obtain ⟨c, hc, pre, post, hsplit, hcnt, -⟩ := runSamples_best (samples img) hne
  have hge := runSamples_bestCount_ge (samples img)
  rw [← hs]
  refine ⟨rfl, hlen, c, ?_, ?_, ?_⟩
  · rw [findBackgroundColor_eq_runSamples, hc]
  · rw [hsplit]
    simp
  · intro d
    have h1 := hge d
    have h2 : (runSamples (samples img)).bestCount ≤ (samples img).count c := by
      rw [← hcnt]
      conv_rhs => rw [hsplit]
      simp [List.count_append]
    omega

/-- Witness of C1 on the 60 by 60 image of four coloured quadrants. -/
theorem findBackgroundColor_most_frequent_witness :
    samples quadImage = cornerDiagonals quadImage ∧ (cornerDiagonals quadImage).length = 120 ∧
      ∃ c, findBackgroundColor quadImage = some c ∧ c ∈ cornerDiagonals quadImage ∧
        ∀ d, (cornerDiagonals quadImage).count d ≤ (cornerDiagonals quadImage).count c :=
  findBackgroundColor_most_frequent quadImage (by decide) (by decide)

/-- C2, at the specification's own scenario: the 10 by 10 image that is black everywhere is of
one colour, yet `findBackgroundColor` returns the zero colour `NRGBA{0,0,0,0}`, which is not
black and occurs nowhere in the image. -/
theorem findBackgroundColor_small_black :
    (solid ⟨⟨0, 0⟩, ⟨10, 10⟩⟩ black).Uniform black ∧
      findBackgroundColor (solid ⟨⟨0, 0⟩, ⟨10, 10⟩⟩ black) = some NRGBA.zero ∧
      NRGBA.zero ≠ black :=
  ⟨fun _ _ _ => rfl,
    by decide, by decide⟩

/-- C3 as stated fails: on `tieImage` red and blue both occur 29 times, more than any other
colour, red is sampled first (index 0, blue index 1), and blue is returned. -/
theorem firstSeenTieBreak_fails : ¬ FirstSeenTieBreak tieImage := by
  intro h
  have h1 : findBackgroundColor tieImage = some blue := by decide
  have h2 := h blue h1 red (by decide)
  revert h2
  decide

/-- C3 amended: the returned colour has the highest frequency `n` among the samples and is
the colour whose running count reaches `n` first in sampling order; and when the image has
pixels and its four corner crops are each of one colour, the four colours pairwise distinct,
the top-left colour is returned. -/
theorem findBackgroundColor_first_to_reach (img : Image) :
    (∃ c n, findBackgroundColor img = some c ∧ (∀ d, (samples img).count d ≤ n) ∧
        (samples img).count c = n ∧ FirstReaches (samples img) c n) ∧
      ∀ c0 c1 c2 c3 : NRGBA, 0 < img.Bounds.Dx → 0 < img.Bounds.Dy →
        (CropAnchor img cropSize cropSize Anchor.TopLeft).Uniform c0 →
        (CropAnchor img cropSize cropSize Anchor.TopRight).Uniform c1 →
        (CropAnchor img cropSize cropSize Anchor.BottomLeft).Uniform c2 →
        (CropAnchor img cropSize cropSize Anchor.BottomRight).Uniform c3 →
        c0 ≠ c1 → c0 ≠ c2 → c0 ≠ c3 → c1 ≠ c2 → c1 ≠ c3 → c2 ≠ c3 →
        findBackgroundColor img = some c0 := by
  constructor
  · have hlen := samples_length img
    have hne : samples img ≠ [] := by
      intro h
      rw [h] at hlen
      simp at hlen
    obtain ⟨c, hc, hfirst⟩ := runSamples_best (samples img) hne
    have hge := runSamples_bestCount_ge (samples img)
    refine ⟨c, (runSamples (samples img)).bestCount, ?_, hge, ?_, hfirst⟩
    · rw [findBackgroundColor_eq_runSamples, hc]
    · obtain ⟨pre, post, hsplit, hcnt, -⟩ := hfirst
      have h1 := hge c
      have h2 : (runSamples (samples img)).bestCount ≤ (samples img).count c := by
        rw [← hcnt]
        conv_rhs => rw [hsplit]
        simp [List.count_append]
      omega
  · intro c0 c1 c2 c3 hw hh h0 h1 h2 h3 h01 h02 h03 h12 h13 h23
    exact findBackgroundColor_distinct_corners img c0 c1 c2 c3 hw hh h0 h1 h2 h3
      h01 h02 h03 h12 h13 h23


theorem quadImage_corner (a : Anchor) (ha : a ∈ anchors) (c : NRGBA)
    (hc : ∀ x y : Int, 0 ≤ x → x < 30 → 0 ≤ y → y < 30 →
      quadImage.Pix ((cornerOrigin quadImage.Bounds a).X + x)
        ((cornerOrigin quadImage.Bounds a).Y + y) = c) :
    (CropAnchor quadImage cropSize cropSize a).Uniform c := by
  obtain ⟨hr, hp⟩ := CropAnchor_corner quadImage a ha (by decide) (by decide)
  intro x y hin
  rw [hr] at hin
  have h60 : quadImage.Bounds.Dx = 60 ∧ quadImage.Bounds.Dy = 60 := by decide
  simp only [Point.In, Bool.and_eq_true, decide_eq_true_eq, h60] at hin
  rw [hp]
  exact hc x y (by omega) (by omega) (by omega) (by omega)

/-- Witness of C3 amended, on the image of four coloured quadrants: red, the top-left
colour, is returned. -/
theorem findBackgroundColor_first_to_reach_witness :
    findBackgroundColor quadImage = some red :=
  (findBackgroundColor_first_to_reach quadImage).2 red blue white black
    (by decide) (by decide)
    (quadImage_corner _ (by simp [anchors]) _ (by
      intro x y h1 h2 h3 h4
      have hx : x < 30 := h2
      have hy : y < 30 := h4
      simp [quadImage, cornerOrigin, anchorPt, Image.Bounds, cropSize, hx, hy]))
    (quadImage_corner _ (by simp [anchors]) _ (by
      intro x y h1 h2 h3 h4
      have hx : ¬ (x < 0) := by omega
      have hy : y < 30 := h4
      simp [quadImage, cornerOrigin, anchorPt, Image.Bounds, cropSize, hx, hy]))
    (quadImage_corner _ (by simp [anchors]) _ (by
      intro x y h1 h2 h3 h4
      have hx : x < 30 := h2
      have hy : ¬ (y < 0) := by omega
      simp [quadImage, cornerOrigin, anchorPt, Image.Bounds, cropSize, hx, hy]))
    (quadImage_corner _ (by simp [anchors]) _ (by
      intro x y h1 h2 h3 h4
      have hx : ¬ (x < 0) := by omega
      have hy : ¬ (y < 0) := by omega
      simp [quadImage, cornerOrigin, anchorPt, Image.Bounds, cropSize, hx, hy]))
    (by decide) (by decide) (by decide) (by decide) (by decide) (by decide)

/-- C9 as stated fails: for the image with no pixels (0 by 0) `findBackgroundColor` returns
a colour, the zero colour, and raises no error. -/
theorem findBackgroundColor_no_pixels :
    findBackgroundColor (solid ⟨⟨0, 0⟩, ⟨0, 0⟩⟩ white) = some NRGBA.zero := by
  decide

/-- C9 amended: for every image of width 0 or height 0, `findBackgroundColor` returns the zero
colour `NRGBA{0,0,0,0}`; there is no error result. -/
theorem findBackgroundColor_of_empty (img : Image)
    (h : img.Bounds.Dx = 0 ∨ img.Bounds.Dy = 0) :
    findBackgroundColor img = some NRGBA.zero := by
  have hu : img.Uniform NRGBA.zero := by
    intro x y hin
    simp only [Point.In, Bool.and_eq_true, decide_eq_true_eq] at hin
    simp only [Rectangle.Dx, Rectangle.Dy, Image.Bounds] at h
    omega
  rw [findBackgroundColor_eq_runSamples, uniform_samples img NRGBA.zero hu]
  apply run_fourBlocks_same
  omega

/-- Witness of C9 amended on an image 0 wide and 5 high. -/
theorem findBackgroundColor_of_empty_witness :
    findBackgroundColor (solid ⟨⟨0, 0⟩, ⟨0, 5⟩⟩ white) = some NRGBA.zero :=
  findBackgroundColor_of_empty _ (Or.inl (by decide))

/-- C10: for an image of one colour `c` with at least one pixel, every corner contributes 30
reads, the first `min m 30` of them `c` and the others, which fall outside the clipped crop,
the zero colour (`m` the smaller of width and height); a read outside a crop is the zero
colour; the result is `c` when `m ≥ 15`, and the zero colour when `m < 15` and `c` is not the
zero colour. -/
theorem findBackgroundColor_uniform (img : Image) (c : NRGBA) (hu : img.Uniform c)
    (hw : 1 ≤ img.Bounds.Dx) (hh : 1 ≤ img.Bounds.Dy) :
    samples img = fourBlocks (insideReads img) (30 - insideReads img) c NRGBA.zero ∧
      (samples img).length = 120 ∧
      ((insideReads img : Int) = min (min img.Bounds.Dx img.Bounds.Dy) 30) ∧
      (∀ a x y, Point.In ⟨x, y⟩ (CropAnchor img cropSize cropSize a).Rect = false →
        (CropAnchor img cropSize cropSize a).At x y = NRGBA.zero) ∧
      (15 ≤ min img.Bounds.Dx img.Bounds.Dy → findBackgroundColor img = some c) ∧
      (min img.Bounds.Dx img.Bounds.Dy < 15 → c ≠ NRGBA.zero →
        findBackgroundColor img = some NRGBA.zero) := by
  refine ⟨uniform_samples img c hu, samples_length img, ?_, ?_, ?_, ?_⟩
  · unfold insideReads
    omega
  · intro a x y hin
    simp [Image.At, hin]
  · exact findBackgroundColor_uniform_inside img c hu
  · intro hm hc
    exact findBackgroundColor_uniform_outside img c hu hc hm

/-- Witness of C10 on a white image 12 wide and 40 high: the zero colour is returned. -/
theorem findBackgroundColor_uniform_witness :
    findBackgroundColor (solid ⟨⟨0, 0⟩, ⟨12, 40⟩⟩ white) = some NRGBA.zero :=
  (findBackgroundColor_uniform (solid ⟨⟨0, 0⟩, ⟨12, 40⟩⟩ white) white (fun _ _ _ => rfl)
    (by decide) (by decide)).2.2.2.2.2 (by decide) (by decide)

/-! ## The claims about `transformImage` -/

/-- C4: for a positive target size `T`, whatever the source image and the background colour,
the image `transformImage` returns has bounds `(0,0)-(T,T)`: it is exactly `T` by `T`. -/
theorem transformImage_dims (k : Kernels) (img : Image) (t : Transform) (bg : NRGBA)
    (hT : 0 < t.Size) :
    (transformImage k img t bg).Bounds = ⟨⟨0, 0⟩, ⟨t.Size, t.Size⟩⟩ ∧
      (transformImage k img t bg).Bounds.Dx = t.Size ∧
      (transformImage k img t bg).Bounds.Dy = t.Size := by
  have h := transformImage_Rect k img t bg hT
  refine ⟨h, ?_, ?_⟩ <;> simp [Image.Bounds, h, Rectangle.Dx, Rectangle.Dy]

/-- Witness of C4 on a 4000 by 2000 source and the `small` transform. -/
theorem transformImage_dims_witness :
    (transformImage Kernels.nearest (solid ⟨⟨0, 0⟩, ⟨4000, 2000⟩⟩ white) small black).Bounds.Dx
        = 300 ∧
      (transformImage Kernels.nearest (solid ⟨⟨0, 0⟩, ⟨4000, 2000⟩⟩ white) small black).Bounds.Dy
        = 300 :=
  (transformImage_dims Kernels.nearest (solid ⟨⟨0, 0⟩, ⟨4000, 2000⟩⟩ white) small black
    (by decide)).2

/-- C5 as stated fails: a 4000 by 3999 source resized for `T = 300` is 300 by 300, so no axis
is strictly smaller than `T`. -/
theorem resizeStep_not_oneAxisFits :
    ¬ OneAxisFits (resizeStep Kernels.nearest (solid ⟨⟨0, 0⟩, ⟨4000, 3999⟩⟩ white) small).Rect
      300 := by
  have h : (resizeStep Kernels.nearest (solid ⟨⟨0, 0⟩, ⟨4000, 3999⟩⟩ white) small).Rect =
      ⟨⟨0, 0⟩, ⟨300, 300⟩⟩ := by decide
  rw [h]
  unfold OneAxisFits
  decide

/-- C5 amended: for a non-square source whose bounds start at the origin, with positive
width, height and target size `T`, the resized content starts at the origin, the axis of the
longer side measures `T`, and the other axis measures `max 1 ⌊T * short / long + 1/2⌋`, which
is at least 1 and at most `T`, and is strictly below `T` exactly when `T ≥ 2` and
`long < 2 * T * (long - short)`. -/
theorem resizeStep_fits (k : Kernels) (img : Image) (t : Transform)
    (hmin : img.Bounds.Min = ⟨0, 0⟩)
    (hw : 0 < img.Bounds.Dx) (hh : 0 < img.Bounds.Dy) (hne : img.Bounds.Dx ≠ img.Bounds.Dy)
    (hT : 0 < t.Size) :
    (resizeStep k img t).Rect.Min = ⟨0, 0⟩ ∧
      (img.Bounds.Dy < img.Bounds.Dx →
        (resizeStep k img t).Rect.Dx = t.Size ∧
        (resizeStep k img t).Rect.Dy =
          max 1 ((2 * (t.Size * img.Bounds.Dy) + img.Bounds.Dx) / (2 * img.Bounds.Dx)) ∧
        1 ≤ (resizeStep k img t).Rect.Dy ∧ (resizeStep k img t).Rect.Dy ≤ t.Size ∧
        ((resizeStep k img t).Rect.Dy < t.Size ↔
          2 ≤ t.Size ∧ img.Bounds.Dx < 2 * t.Size * (img.Bounds.Dx - img.Bounds.Dy))) ∧
      (img.Bounds.Dx < img.Bounds.Dy →
        (resizeStep k img t).Rect.Dy = t.Size ∧
        (resizeStep k img t).Rect.Dx =
          max 1 ((2 * (t.Size * img.Bounds.Dx) + img.Bounds.Dy) / (2 * img.Bounds.Dy)) ∧
        1 ≤ (resizeStep k img t).Rect.Dx ∧ (resizeStep k img t).Rect.Dx ≤ t.Size ∧
        ((resizeStep k img t).Rect.Dx < t.Size ↔
          2 ≤ t.Size ∧ img.Bounds.Dy < 2 * t.Size * (img.Bounds.Dy - img.Bounds.Dx))) := by
  have hX : img.Bounds.Max.X = img.Bounds.Dx := by
    simp [Rectangle.Dx, hmin]
  have hY : img.Bounds.Max.Y = img.Bounds.Dy := by
    simp [Rectangle.Dy, hmin]
  by_cases hgt : img.Bounds.Max.X > img.Bounds.Max.Y
  · have hr := resizeStep_Rect_wide k img t hw hh hT hgt
    have hlt : img.Bounds.Dy < img.Bounds.Dx := by omega
    have h1 := autoDim_pos t.Size img.Bounds.Dy img.Bounds.Dx
    have h2 := autoDim_le t.Size img.Bounds.Dy img.Bounds.Dx hT hh hlt
    have h3 := autoDim_lt_iff t.Size img.Bounds.Dy img.Bounds.Dx hT hh hlt
    refine ⟨by rw [hr], ?_, fun h => absurd h (by omega)⟩
    intro _
    have hdx : (resizeStep k img t).Rect.Dx = t.Size := by
      rw [hr]; simp [Rectangle.Dx]
    have hdy : (resizeStep k img t).Rect.Dy = autoDim t.Size img.Bounds.Dy img.Bounds.Dx := by
      rw [hr]; simp [Rectangle.Dy]
    rw [hdx, hdy]
    exact ⟨rfl, rfl, h1, h2, h3⟩
  · have hr := resizeStep_Rect_tall k img t hw hh hT hgt
    have hlt : img.Bounds.Dx < img.Bounds.Dy := by omega
    have h1 := autoDim_pos t.Size img.Bounds.Dx img.Bounds.Dy
    have h2 := autoDim_le t.Size img.Bounds.Dx img.Bounds.Dy hT hw hlt
    have h3 := autoDim_lt_iff t.Size img.Bounds.Dx img.Bounds.Dy hT hw hlt
    refine ⟨by rw [hr], fun h => absurd h (by omega), ?_⟩
    intro _
    have hdy : (resizeStep k img t).Rect.Dy = t.Size := by
      rw [hr]; simp [Rectangle.Dy]
    have hdx : (resizeStep k img t).Rect.Dx = autoDim t.Size img.Bounds.Dx img.Bounds.Dy := by
      rw [hr]; simp [Rectangle.Dx]
    rw [hdx, hdy]
    exact ⟨rfl, rfl, h1, h2, h3⟩

/-- Witness of C5 amended: a 4000 by 2000 source resized for `T = 300` is 300 wide and
strictly less than 300 high. -/
theorem resizeStep_fits_witness :
    (resizeStep Kernels.nearest (solid ⟨⟨0, 0⟩, ⟨4000, 2000⟩⟩ white) small).Rect.Dx = 300 ∧
      (resizeStep Kernels.nearest (solid ⟨⟨0, 0⟩, ⟨4000, 2000⟩⟩ white) small).Rect.Dy < 300 :=
  have h := (resizeStep_fits Kernels.nearest (solid ⟨⟨0, 0⟩, ⟨4000, 2000⟩⟩ white) small rfl
    (by decide) (by decide) (by decide) (by decide)).2.1 (by decide)
  ⟨h.1, h.2.2.2.2.mpr (by decide)⟩

/-- C6, where the code departs from it: for the 10 wide, 50 high image with bounds
`(100,0)-(110,50)` and `T = 300`, `transformImage` compares `Max.X = 110` with `Max.Y = 50`,
fixes the width, resizes to 300 by 1500 and pastes the content at `(0, -600)`: the top and
bottom margins are -600, not non-negative. -/
theorem transformImage_offset_overflows :
    offsetImage.Bounds.Dx = 10 ∧ offsetImage.Bounds.Dy = 50 ∧
      (Sharpen Kernels.nearest (resizeStep Kernels.nearest offsetImage small)).Rect =
        ⟨⟨0, 0⟩, ⟨300, 1500⟩⟩ ∧
      centerOffset (New 300 300 white)
        (Sharpen Kernels.nearest (resizeStep Kernels.nearest offsetImage small)) = ⟨0, -600⟩ ∧
      transformImage Kernels.nearest offsetImage small white =
        Overlay Kernels.nearest (New 300 300 white)
          (Sharpen Kernels.nearest (resizeStep Kernels.nearest offsetImage small)) ⟨0, -600⟩ ∧
      margins 300 300 1500 ⟨0, -600⟩ = (0, 0, -600, -600) := by
  refine ⟨by decide, by decide, by decide, by decide, ?_, by decide⟩
  rfl

/-- C7: with a transform of size 0, `transformImage` returns its input image itself. -/
theorem transformImage_size_zero (k : Kernels) (img : Image) (t : Transform) (bg : NRGBA)
    (h : t.Size = 0) : transformImage k img t bg = img := by
  simp [transformImage, h]

/-- Witness of C7 on a 40 by 30 image. -/
theorem transformImage_size_zero_witness :
    transformImage Kernels.nearest (solid ⟨⟨0, 0⟩, ⟨40, 30⟩⟩ red) (sized 0) white =
      solid ⟨⟨0, 0⟩, ⟨40, 30⟩⟩ red :=
  transformImage_size_zero Kernels.nearest _ (sized 0) white rfl

/-- C8 as stated fails: with size -1, `transformImage` returns an image, the empty one, and
raises no error. -/
theorem transformImage_minus_one :
    transformImage Kernels.nearest (solid ⟨⟨0, 0⟩, ⟨40, 30⟩⟩ red) (sized (-1)) white =
      Image.empty := by
  rfl

/-- C8 amended: for a negative size, `transformImage` returns the empty image (0 by 0
pixels); there is no error result. -/
theorem transformImage_negative_size (k : Kernels) (img : Image) (t : Transform) (bg : NRGBA)
    (hT : t.Size < 0) :
    transformImage k img t bg = Image.empty ∧
      (transformImage k img t bg).Bounds.Dx = 0 ∧ (transformImage k img t bg).Bounds.Dy = 0 := by
  rw [transformImage_of_neg k img t bg hT]
  exact ⟨rfl, rfl, rfl⟩

/-- Witness of C8 amended at size -300. -/
theorem transformImage_negative_size_witness :
    transformImage Kernels.nearest (solid ⟨⟨0, 0⟩, ⟨4000, 2000⟩⟩ white) (sized (-300)) black =
      Image.empty :=
  (transformImage_negative_size Kernels.nearest _ (sized (-300)) black (by decide)).1

end LambdaThumbnail
